import Mathlib

/-!
Shallow embedding of the product-evaluation pipeline
(`src/lib/extract-text.ts` and the fallback summary of
`src/app/api/generate-summary/route.ts`).

Strings are modelled as `List Char` (JS `.length`, `.includes`, `.trim`,
`.split`, `.toLowerCase` become list operations); JS numbers that carry
ratings/salience are modelled as rationals; JS `Array.prototype.sort`
(required stable by the language spec) is modelled by the stable
`List.insertionSort`; fallible/effectful code is modelled with `Except`
over explicit environment oracles.
-/

namespace BusinessEvaluator

/-- Content strings are lists of characters. -/
abbrev Str := List Char

/-- Coerce a Lean string literal to the `Str` model. -/
def str (s : String) : Str := s.data

/-- JS `hay.includes(needle)`: contiguous substring test. -/
def jsIncludes : Str → Str → Bool
  | [], needle => needle.isEmpty
  | h :: t, needle => needle.isPrefixOf (h :: t) || jsIncludes t needle

/-- JS `s.toLowerCase()` (ASCII-adequate model). -/
def toLowerStr (s : Str) : Str := s.map Char.toLower

/-- JS `s.trim()`: strip whitespace from both ends. -/
def trimStr (s : Str) : Str :=
  ((s.dropWhile Char.isWhitespace).reverse.dropWhile Char.isWhitespace).reverse

/-- JS `s.split(sep)` for a single-character separator. -/
def jsSplit (sep : Char) : Str → List Str
  | [] => [[]]
  | c :: t =>
    if c = sep then [] :: jsSplit sep t
    else
      match jsSplit sep t with
      | [] => [[c]]
      | h :: r => (c :: h) :: r

/-- JS `a || b` on strings: `a` when non-empty (truthy), else `b`. -/
def jsOr (a b : Str) : Str := if a = [] then b else a

/-- `UserPreferences` from `src/lib/extract-text.ts` (all fields optional). -/
structure UserPreferences where
  expertise : Option Str
  productTypes : Option (List Str)
  evaluationCriteria : Option (List Str)

/-- An annotated entity (`google.cloud.language.v1.IEntity`), restricted to
the fields the pipeline reads. `mentions` is modelled by the number of
mention records (the code only tests `entity.mentions &&
entity.mentions.length > 0`); `salience` is `none` when absent. -/
structure Entity where
  type : Str
  name : Str
  salience : Option ℚ
  mentions : Nat

/-- An annotated sentence: `sentence.text?.content`, `none` when either
`text` or `content` is missing. -/
structure Sentence where
  text : Option Str

/-- The working `productInfo` record of `extractProductInfo`.
`specifications` is a JS object used as a string map: insertion-ordered
association list with overwrite-in-place on key collision. -/
structure ProductInfo where
  name : Str
  price : Str
  features : List Str
  specifications : List (Str × Str)
  description : Str
deriving DecidableEq

/-- The initial `productInfo` object (all fields empty). -/
def initProductInfo : ProductInfo :=
  { name := [], price := [], features := [], specifications := [], description := [] }

/-- JS object property assignment `obj[k] = v` for an insertion-ordered
string map: overwrite in place if the key exists, else append. -/
def setSpec : List (Str × Str) → Str → Str → List (Str × Str)
  | [], k, v => [(k, v)]
  | (k', v') :: t, k, v =>
    if k' = k then (k, v) :: t else (k', v') :: setSpec t k v

/-- Lookup in the specification map. -/
def lookupSpec (m : List (Str × Str)) (k : Str) : Option Str :=
  match m.find? (fun kv => decide (kv.1 = k)) with
  | some kv => some kv.2
  | none => none

/-- The `salience && salience > 0.1` test (falsy absent/zero salience
fails; otherwise compare with 0.1). -/
def salienceOk : Option ℚ → Bool
  | none => false
  | some s => decide (s > 1 / 10)

/-- The body of the `for (const entity of entities)` loop of
`extractProductInfo`, one entity step over the accumulated record. -/
def processEntity (pi : ProductInfo) (e : Entity) : ProductInfo :=
  if e.name = [] then pi
  else
    let pi1 :=
      if e.type = str "CONSUMER_GOOD" ∧ salienceOk e.salience = true ∧ pi.name = [] then
        { pi with name := e.name }
      else pi
    let pi2 :=
      if e.type = str "PRICE" ∧ pi1.price = [] then
        { pi1 with price := e.name }
      else pi1
    if e.type = str "OTHER" ∧ e.mentions > 0 then
      if jsIncludes e.name (str " ") = true ∧ e.name.length > 10 then
        { pi2 with features := pi2.features ++ [e.name] }
      else if jsIncludes e.name (str ":") = true then
        let parts := (jsSplit ':' e.name).map trimStr
        let key := parts.getD 0 []
        let value := parts.getD 1 []
        if key ≠ [] ∧ value ≠ [] then
          { pi2 with specifications := setSpec pi2.specifications key value }
        else pi2
      else pi2
    else pi2

/-- Whether a feature string matches at least one evaluation criterion
(case-insensitive substring match), as in the feature sort comparator. -/
def criterionMatch (cs : List Str) (a : Str) : Bool :=
  cs.any (fun c => jsIncludes (toLowerStr a) (toLowerStr c))

/-- The JS comparator passed to `productInfo.features.sort`. -/
def featureCmp (cs : List Str) (a b : Str) : Int :=
  if criterionMatch cs a = true ∧ criterionMatch cs b = false then -1
  else if criterionMatch cs a = false ∧ criterionMatch cs b = true then 1
  else 0

/-- The "may come first" relation induced by `featureCmp` (a stable JS
sort orders by `cmp a b ≤ 0` with ties kept in input order). -/
def featRel (cs : List Str) (a b : Str) : Prop := featureCmp cs a b ≤ 0

instance (cs : List Str) : DecidableRel (featRel cs) := fun a b => Int.decLe _ _

/-- `extractProductInfo` from `src/lib/extract-text.ts`: fold the entity
loop, then (when `preferences?.evaluationCriteria` is present and features
non-empty, as in the source's truthiness test) stable-sort the features by
the preference comparator. -/
def extractProductInfo (entities : List Entity) (preferences : Option UserPreferences) :
    ProductInfo :=
  let pi := entities.foldl processEntity initProductInfo
  match preferences with
  | none => pi
  | some p =>
    match p.evaluationCriteria with
    | none => pi
    | some cs =>
      if pi.features.length > 0 then
        { pi with features := List.insertionSort (featRel cs) pi.features }
      else pi

/-- The description filter of `extractDescriptions`: length over 40 and
none of the boilerplate substrings (case-sensitive, lowercase literals). -/
def qualifies (t : Str) : Bool :=
  decide (t.length > 40) &&
    !jsIncludes t (str "click") &&
    !jsIncludes t (str "login") &&
    !jsIncludes t (str "sign in") &&
    !jsIncludes t (str "cookie") &&
    !jsIncludes t (str "review by")

/-- The filtering loop of `extractDescriptions` (`if (!text) continue`
skips missing and empty text; qualifying texts are pushed in order). -/
def filterDescs : List Sentence → List Str
  | [] => []
  | s :: rest =>
    match s.text with
    | none => filterDescs rest
    | some t =>
      if t = [] then filterDescs rest
      else if qualifies t = true then t :: filterDescs rest
      else filterDescs rest

/-- The relevance score of a sentence: number of criteria occurring in it
(case-insensitive substring match), as in the `reduce` of the sort. -/
def relevanceScore (cs : List Str) (t : Str) : Nat :=
  cs.foldl (fun sc c => sc + (if jsIncludes (toLowerStr t) (toLowerStr c) = true then 1 else 0)) 0

/-- The JS comparator of the description sort: `bScore - aScore`. -/
def descCmp (cs : List Str) (a b : Str) : Int :=
  (relevanceScore cs b : Int) - (relevanceScore cs a : Int)

/-- The "may come first" relation induced by `descCmp`. -/
def descRel (cs : List Str) (a b : Str) : Prop := descCmp cs a b ≤ 0

instance (cs : List Str) : DecidableRel (descRel cs) := fun a b => Int.decLe _ _

/-- `extractDescriptions` from `src/lib/extract-text.ts`. -/
def extractDescriptions (sentences : List Sentence) (preferences : Option UserPreferences) :
    List Str :=
  let descriptions := filterDescs sentences
  match preferences with
  | none => descriptions
  | some p =>
    match p.evaluationCriteria with
    | none => descriptions
    | some cs =>
      if descriptions.length > 0 then List.insertionSort (descRel cs) descriptions
      else descriptions

/-- The "detailed mode" test of `extractTextFromUrl`:
`preferences?.expertise === "expert" || preferences?.expertise === "advanced"`. -/
def isExpertMode (preferences : Option UserPreferences) : Bool :=
  match preferences with
  | none => false
  | some p =>
    match p.expertise with
    | none => false
    | some e => decide (e = str "expert") || decide (e = str "advanced")

/-- The report of step 7 of `extractTextFromUrl`, by section. -/
structure Report where
  productName : Str
  priceLine : Str
  descriptionSection : Str
  featureBullets : List Str
  specBullets : List Str
  additionalInfo : Str
deriving DecidableEq

/-- Step 7 of `extractTextFromUrl`: assemble the report sections from the
product info, the description candidates, the readable content and the
preferences, with the truncation policy keyed on detailed mode. -/
def buildReport (pi : ProductInfo) (descriptions : List Str) (mainContent : Str)
    (preferences : Option UserPreferences) : Report :=
  let isExpert := isExpertMode preferences
  { productName := jsOr pi.name (str "Unknown Product")
    priceLine := if pi.price = [] then [] else str "Price: " ++ pi.price
    descriptionSection :=
      jsOr (List.intercalate (str "\n\n") (descriptions.take (if isExpert then 5 else 3)))
        (jsOr pi.description (str "No description available."))
    featureBullets :=
      if pi.features.length > 0 then
        (pi.features.take (if isExpert then 10 else 5)).map (fun f => str "- " ++ f)
      else [str "- No features extracted."]
    specBullets :=
      if pi.specifications.length > 0 then
        pi.specifications.map (fun kv => str "- " ++ kv.1 ++ str ": " ++ kv.2)
      else [str "- No specifications extracted."]
    additionalInfo := mainContent.take (if isExpert then 2000 else 1000) ++ str "..." }

/-- Concatenate the report sections into the final template string. -/
def renderReport (r : Report) : Str :=
  str "\nProduct Name: " ++ r.productName ++ str "\n" ++ r.priceLine ++
    str "\n\nProduct Description:\n" ++ r.descriptionSection ++
    str "\n\nKey Features:\n" ++ List.intercalate (str "\n") r.featureBullets ++
    str "\n\nTechnical Specifications:\n" ++ List.intercalate (str "\n") r.specBullets ++
    str "\n\nAdditional Information:\n" ++ r.additionalInfo ++ str "\n    "

/-- Outcome of the raw document fetch: success body, non-2xx response with
its status line, or a transport-level exception. -/
inductive FetchOutcome where
  | success (html : Str)
  | httpError (statusLine : Str)
  | netError (msg : Str)

/-- Outcome of one annotation-service POST: parsed payload on success, or
a non-2xx response with status line and error body. -/
inductive ApiOutcome (α : Type) where
  | success (payload : α)
  | httpError (statusLine : Str) (body : Str)

/-- The external world of one pipeline run: the document fetch, the
Readability parse (`Except.error` = thrown exception, empty `Except.ok` =
no usable article text), the configured credential, and the two
annotation endpoints keyed by request content. -/
structure Env where
  fetch : Str → FetchOutcome
  parse : Str → Except Str Str
  apiKey : Option Str
  entitiesApi : Str → ApiOutcome (List Entity)
  syntaxApi : Str → ApiOutcome (List Sentence)

/-- `fetchHtmlFromUrl`: wrap both failure modes with the fetch-stage
message (the non-2xx branch first builds its own `Failed to fetch URL`
message, which the stage catch then wraps). -/
def fetchHtmlFromUrl (env : Env) (url : Str) : Except Str Str :=
  match env.fetch url with
  | .success h => .ok h
  | .httpError s =>
    .error (str "Failed to fetch content from URL: " ++ (str "Failed to fetch URL: " ++ s))
  | .netError m => .error (str "Failed to fetch content from URL: " ++ m)

/-- `extractMainContent`: missing article or empty text content raises the
internal message, and every failure is wrapped with the stage message. -/
def extractMainContent (env : Env) (html : Str) : Except Str Str :=
  match env.parse html with
  | .error m => .error (str "Failed to extract main content: " ++ m)
  | .ok t =>
    if t = [] then
      .error (str "Failed to extract main content: " ++
        str "Failed to extract main content from HTML")
    else .ok t

/-- `analyzeEntities`: fails before any request when the credential is
absent; otherwise issues the request (second component records whether a
network call was made) and wraps a non-2xx response. -/
def analyzeEntities (apiKey : Option Str) (api : Str → ApiOutcome (List Entity)) (text : Str) :
    Except Str (List Entity) × Bool :=
  match apiKey with
  | none =>
    (.error (str "Failed to analyze entities: " ++ str "Google Cloud API key is not configured"),
      false)
  | some _ =>
    match api text with
    | .success es => (.ok es, true)
    | .httpError s b =>
      (.error (str "Failed to analyze entities: " ++
        (str "Google Cloud API error: " ++ s ++ str " - " ++ b)), true)

/-- `analyzeSyntax`: same credential and wrapping behavior as
`analyzeEntities`, distinct endpoint and stage message. -/
def analyzeSyntax (apiKey : Option Str) (api : Str → ApiOutcome (List Sentence)) (text : Str) :
    Except Str (List Sentence) × Bool :=
  match apiKey with
  | none =>
    (.error (str "Failed to analyze syntax: " ++ str "Google Cloud API key is not configured"),
      false)
  | some _ =>
    match api text with
    | .success ss => (.ok ss, true)
    | .httpError s b =>
      (.error (str "Failed to analyze syntax: " ++
        (str "Google Cloud API error: " ++ s ++ str " - " ++ b)), true)

/-- `extractTextFromUrl`: the linear pipeline; any stage error is wrapped
once more by the top-level catch. -/
def extractTextFromUrl (env : Env) (url : Str) (preferences : Option UserPreferences) :
    Except Str Str :=
  match fetchHtmlFromUrl env url with
  | .error e => .error (str "Failed to extract text from URL: " ++ e)
  | .ok html =>
    match extractMainContent env html with
    | .error e => .error (str "Failed to extract text from URL: " ++ e)
    | .ok mainContent =>
      let truncatedContent := mainContent.take 5000
      match (analyzeEntities env.apiKey env.entitiesApi truncatedContent).1 with
      | .error e => .error (str "Failed to extract text from URL: " ++ e)
      | .ok entities =>
        match (analyzeSyntax env.apiKey env.syntaxApi truncatedContent).1 with
        | .error e => .error (str "Failed to extract text from URL: " ++ e)
        | .ok sentences =>
          .ok (renderReport (buildReport (extractProductInfo entities preferences)
            (extractDescriptions sentences preferences) mainContent preferences))

/-- An assessment criterion of the summary route (rating validated into
[0,10] by the handler; modelled as an exact rational). -/
structure Criterion where
  name : Str
  rating : ℚ
  notes : Str

/-- Comparator relation of the strengths sort (`(a, b) => b.rating -
a.rating`, kept when the comparator is non-positive): descending. -/
def strengthsRel (a b : Criterion) : Prop := b.rating - a.rating ≤ 0

instance : DecidableRel strengthsRel := fun a b => Rat.instDecidableLe _ _

/-- Comparator relation of the improvements sort (`(a, b) => a.rating -
b.rating`): ascending. -/
def improveRel (a b : Criterion) : Prop := a.rating - b.rating ≤ 0

instance : DecidableRel improveRel := fun a b => Rat.instDecidableLe _ _

/-- The computed parts of the simulated fallback summary. -/
structure SimulatedSummary where
  averageRating : ℚ
  strengths : List Criterion
  improvements : List Criterion

/-- `getSimulatedSummary` from `src/app/api/generate-summary/route.ts`:
average of the ratings (the markdown renders it to one decimal place),
top `min(3, n)` of a stable descending sort, bottom `min(2, n)` of a
stable ascending sort. -/
def getSimulatedSummary (criteria : List Criterion) : SimulatedSummary :=
  { averageRating := (criteria.map Criterion.rating).sum / criteria.length
    strengths := (List.insertionSort strengthsRel criteria).take (min 3 criteria.length)
    improvements := (List.insertionSort improveRel criteria).take (min 2 criteria.length) }

/-!
Characterization of the entity loop (claims C1, C2, C10).
-/

/-- Spec wording for C1: an entity qualifies for the product name when its
type is CONSUMER_GOOD, its salience exceeds 0.1 and its name is non-empty. -/
def nameQual (e : Entity) : Bool :=
  !decide (e.name = []) && decide (e.type = str "CONSUMER_GOOD") && salienceOk e.salience

/-- Spec wording for C1: the name of the first qualifying entity in input
order, empty when none exists. -/
def specFirstName (es : List Entity) : Str :=
  match es.find? nameQual with
  | some e => e.name
  | none => []

/-- Spec wording for C1: an entity qualifies for the price when its type
is PRICE and its name is non-empty (no salience threshold). -/
def priceQual (e : Entity) : Bool :=
  !decide (e.name = []) && decide (e.type = str "PRICE")

/-- Spec wording for C1: the name of the first price-qualifying entity in
input order, empty when none exists. -/
def specFirstPrice (es : List Entity) : Str :=
  match es.find? priceQual with
  | some e => e.name
  | none => []

/-- Spec wording for C2 (amended): the trimmed text before the first
colon of a specification-shaped entity name. -/
def textBeforeFirstColon (s : Str) : Str := s.takeWhile (fun c => !decide (c = ':'))

/-- Spec wording for C2: the text after the first colon (everything past
it, further colons included). -/
def textAfterFirstColon (s : Str) : Str := (s.dropWhile (fun c => !decide (c = ':'))).drop 1

/-- Spec wording for C2 (amended): the value segment actually stored --
the text between the first and the second colon (to the end of the string
when there is no second colon), before trimming. -/
def colonValueSegment (s : Str) : Str :=
  (textAfterFirstColon s).takeWhile (fun c => !decide (c = ':'))

/-!
Generic lemmas about the stable sort model. A JS `sort(cmp)` with a
consistent comparator keeps `a` before `b` whenever `cmp a b ≤ 0`, ties in
input order; `List.insertionSort` with the relation `cmp a b ≤ 0` realizes
exactly that. The lemmas below characterize it for comparators that are
induced by a key function (descending), and for boolean partition
comparators.
-/

section SortLemmas

variable {α : Type} {β : Type} [LinearOrder β]

lemma filter_orderedInsert_key (k : α → β) (r : α → α → Prop) [DecidableRel r]
    (hr : ∀ a b, r a b ↔ k b ≤ k a) (n : β) (a : α) (L : List α) :
    (List.orderedInsert r a L).filter (fun x => decide (k x = n)) =
      if k a = n then a :: L.filter (fun x => decide (k x = n))
      else L.filter (fun x => decide (k x = n)) := by
  induction L with
  | nil =>
    by_cases h : k a = n <;> simp [List.orderedInsert, h]
  | cons b t ih =>
    by_cases hab : r a b
    · by_cases h : k a = n <;> simp [List.orderedInsert, hab, h]
    · have hba : k a < k b := lt_of_not_le (fun hc => hab ((hr a b).2 hc))
      by_cases h : k a = n
      · have hbn : ¬ (k b = n) := fun hc => (ne_of_lt hba) (h.trans hc.symm)
        simp [List.orderedInsert, hab, h, hbn, ih]
      · by_cases hbn : k b = n <;> simp [List.orderedInsert, hab, h, hbn, ih]

lemma filter_insertionSort_key (k : α → β) (r : α → α → Prop) [DecidableRel r]
    (hr : ∀ a b, r a b ↔ k b ≤ k a) (n : β) (l : List α) :
    (List.insertionSort r l).filter (fun x => decide (k x = n)) =
      l.filter (fun x => decide (k x = n)) := by
  induction l with
  | nil => rfl
  | cons a t ih =>
    rw [List.insertionSort, filter_orderedInsert_key k r hr n a (List.insertionSort r t)]
    by_cases h : k a = n <;> simp [h, ih]

lemma sorted_insertionSort_key (k : α → β) (r : α → α → Prop) [DecidableRel r]
    (hr : ∀ a b, r a b ↔ k b ≤ k a) (l : List α) :
    List.Sorted (fun a b => k b ≤ k a) (List.insertionSort r l) := by
  haveI : IsTotal α r := ⟨fun a b => by
    rw [hr, hr]
    exact (le_total (k b) (k a)).imp id id⟩
  haveI : IsTrans α r := ⟨fun a b c hab hbc => by
    rw [hr] at hab hbc ⊢
    exact le_trans hbc hab⟩
  exact (List.sorted_insertionSort r l).imp (fun h => (hr _ _).1 h)

lemma orderedInsert_of_forall_rel (r : α → α → Prop) [DecidableRel r] (a : α) (L : List α)
    (h : ∀ b ∈ L, r a b) : List.orderedInsert r a L = a :: L := by
  cases L with
  | nil => rfl
  | cons b t => simp [List.orderedInsert, h b (List.mem_cons_self b t)]

lemma orderedInsert_append_of_forall_not (r : α → α → Prop) [DecidableRel r] (a : α)
    (A B : List α) (hA : ∀ x ∈ A, ¬ r a x) (hB : ∀ x ∈ B, r a x) :
    List.orderedInsert r a (A ++ B) = A ++ a :: B := by
  induction A with
  | nil => simpa using orderedInsert_of_forall_rel r a B hB
  | cons c A' ih =>
    have hc : ¬ r a c := hA c (List.mem_cons_self c A')
    have ih' := ih (fun x hx => hA x (List.mem_cons_of_mem c hx))
    show List.orderedInsert r a (c :: (A' ++ B)) = (c :: A') ++ a :: B
    show (if r a c then a :: c :: (A' ++ B) else c :: List.orderedInsert r a (A' ++ B)) = _
    rw [if_neg hc, ih']
    rfl

lemma insertionSort_partition (r : α → α → Prop) [DecidableRel r] (p : α → Bool)
    (hrp : ∀ a b, r a b ↔ (p a = true ∨ p b = false)) (l : List α) :
    List.insertionSort r l = l.filter p ++ l.filter (fun x => !p x) := by
  induction l with
  | nil => rfl
  | cons a t ih =>
    rw [List.insertionSort, ih]
    by_cases h : p a = true
    · have hall : ∀ b ∈ t.filter p ++ t.filter (fun x => !p x), r a b := by
        intro b _
        exact (hrp a b).2 (Or.inl h)
      rw [orderedInsert_of_forall_rel r a _ hall]
      simp [List.filter_cons, h]
    · have hfa : p a = false := by
        cases hpa : p a
        · rfl
        · exact absurd hpa h
      have hA : ∀ x ∈ t.filter p, ¬ r a x := by
        intro x hx hr'
        have hpx : p x = true := (List.mem_filter.mp hx).2
        rcases (hrp a x).1 hr' with h1 | h2
        · exact h h1
        · rw [hpx] at h2
          exact Bool.noConfusion h2
      have hB : ∀ x ∈ t.filter (fun y => !p y), r a x := by
        intro x hx
        have hpx : p x = false := by
          have := (List.mem_filter.mp hx).2
          simpa using this
        exact (hrp a x).2 (Or.inr hpx)
      rw [orderedInsert_append_of_forall_not r a _ _ hA hB]
      simp [List.filter_cons, hfa]

end SortLemmas

/-!
Characterization of the entity loop (claims C1, C2, C10).
-/

lemma processEntity_name (pi : ProductInfo) (e : Entity) :
    (processEntity pi e).name =
      if nameQual e = true ∧ pi.name = [] then e.name else pi.name := by
  unfold processEntity
  split_ifs <;> simp_all [nameQual, apply_ite ProductInfo.name]

lemma processEntity_price (pi : ProductInfo) (e : Entity) :
    (processEntity pi e).price =
      if priceQual e = true ∧ pi.price = [] then e.name else pi.price := by
  unfold processEntity
  split_ifs <;> simp_all [priceQual, apply_ite ProductInfo.price]

lemma processEntity_description (pi : ProductInfo) (e : Entity) :
    (processEntity pi e).description = pi.description := by
  unfold processEntity
  split_ifs <;> simp_all [apply_ite ProductInfo.description]

lemma foldl_processEntity_name (es : List Entity) :
    ∀ pi : ProductInfo, (es.foldl processEntity pi).name =
      if pi.name = [] then specFirstName es else pi.name := by
  induction es with
  | nil =>
    intro pi
    by_cases h : pi.name = [] <;> simp [specFirstName, List.find?, h]
  | cons e es ih =>
    intro pi
    rw [List.foldl_cons, ih]
    by_cases hq : nameQual e = true
    · by_cases hpi : pi.name = []
      · have hn : (processEntity pi e).name = e.name := by
          rw [processEntity_name]
          simp [hq, hpi]
        have hne : e.name ≠ [] := by
          unfold nameQual at hq
          simp only [Bool.and_eq_true, decide_eq_true_eq, Bool.not_eq_true'] at hq
          simpa using hq.1.1
        rw [hn, if_neg hne, if_pos hpi]
        simp [specFirstName, List.find?_cons, hq]
      · have hn : (processEntity pi e).name = pi.name := by
          rw [processEntity_name]
          simp [hpi]
        rw [hn, if_neg hpi, if_neg hpi]
    · have hfq : nameQual e = false := by
        cases h : nameQual e
        · rfl
        · exact absurd h hq
      have hn : (processEntity pi e).name = pi.name := by
        rw [processEntity_name]
        simp [hfq]
      rw [hn]
      by_cases hpi : pi.name = [] <;>
        simp [hpi, specFirstName, List.find?_cons, hfq]

lemma foldl_processEntity_price (es : List Entity) :
    ∀ pi : ProductInfo, (es.foldl processEntity pi).price =
      if pi.price = [] then specFirstPrice es else pi.price := by
  induction es with
  | nil =>
    intro pi
    by_cases h : pi.price = [] <;> simp [specFirstPrice, List.find?, h]
  | cons e es ih =>
    intro pi
    rw [List.foldl_cons, ih]
    by_cases hq : priceQual e = true
    · by_cases hpi : pi.price = []
      · have hn : (processEntity pi e).price = e.name := by
          rw [processEntity_price]
          simp [hq, hpi]
        have hne : e.name ≠ [] := by
          unfold priceQual at hq
          simp only [Bool.and_eq_true, decide_eq_true_eq, Bool.not_eq_true'] at hq
          simpa using hq.1
        rw [hn, if_neg hne, if_pos hpi]
        simp [specFirstPrice, List.find?_cons, hq]
      · have hn : (processEntity pi e).price = pi.price := by
          rw [processEntity_price]
          simp [hpi]
        rw [hn, if_neg hpi, if_neg hpi]
    · have hfq : priceQual e = false := by
        cases h : priceQual e
        · rfl
        · exact absurd h hq
      have hn : (processEntity pi e).price = pi.price := by
        rw [processEntity_price]
        simp [hfq]
      rw [hn]
      by_cases hpi : pi.price = [] <;>
        simp [hpi, specFirstPrice, List.find?_cons, hfq]

lemma extractProductInfo_name_eq (entities : List Entity) (preferences : Option UserPreferences) :
    (extractProductInfo entities preferences).name =
      (entities.foldl processEntity initProductInfo).name := by
  unfold extractProductInfo
  cases preferences with
  | none => rfl
  | some p =>
    obtain ⟨ex, pt, ec⟩ := p
    cases ec with
    | none => rfl
    | some cs =>
      dsimp only
      split <;> rfl

lemma extractProductInfo_price_eq (entities : List Entity) (preferences : Option UserPreferences) :
    (extractProductInfo entities preferences).price =
      (entities.foldl processEntity initProductInfo).price := by
  unfold extractProductInfo
  cases preferences with
  | none => rfl
  | some p =>
    obtain ⟨ex, pt, ec⟩ := p
    cases ec with
    | none => rfl
    | some cs =>
      dsimp only
      split <;> rfl

lemma foldl_processEntity_description (es : List Entity) :
    ∀ pi : ProductInfo, (es.foldl processEntity pi).description = pi.description := by
  induction es with
  | nil => intro pi; rfl
  | cons e es ih =>
    intro pi
    rw [List.foldl_cons, ih, processEntity_description]

lemma extractProductInfo_description_eq (entities : List Entity)
    (preferences : Option UserPreferences) :
    (extractProductInfo entities preferences).description = [] := by
  have hbase : (entities.foldl processEntity initProductInfo).description = [] :=
    foldl_processEntity_description entities initProductInfo
  unfold extractProductInfo
  cases preferences with
  | none => exact hbase
  | some p =>
    obtain ⟨ex, pt, ec⟩ := p
    cases ec with
    | none => exact hbase
    | some cs =>
      dsimp only
      split
      · exact hbase
      · exact hbase

lemma qualifies_ne_nil {t : Str} (h : qualifies t = true) : t ≠ [] := by
  intro hnil
  rw [hnil] at h
  exact absurd h (by decide)

lemma mem_filterDescs (ss : List Sentence) (t : Str) :
    t ∈ filterDescs ss ↔ (∃ s ∈ ss, s.text = some t) ∧ qualifies t = true := by
  induction ss with
  | nil => simp [filterDescs]
  | cons s rest ih =>
    cases hs : s.text with
    | none =>
      rw [filterDescs, hs]
      rw [ih]
      constructor
      · rintro ⟨⟨s', hs', ht'⟩, hq⟩
        exact ⟨⟨s', List.mem_cons_of_mem s hs', ht'⟩, hq⟩
      · rintro ⟨⟨s', hs', ht'⟩, hq⟩
        rcases List.mem_cons.mp hs' with rfl | hmem
        · rw [hs] at ht'
          exact Option.noConfusion ht'
        · exact ⟨⟨s', hmem, ht'⟩, hq⟩
    | some u =>
      rw [filterDescs, hs]
      dsimp only
      by_cases hu : u = []
      · rw [if_pos hu, ih]
        constructor
        · rintro ⟨⟨s', hs', ht'⟩, hq⟩
          exact ⟨⟨s', List.mem_cons_of_mem s hs', ht'⟩, hq⟩
        · rintro ⟨⟨s', hs', ht'⟩, hq⟩
          rcases List.mem_cons.mp hs' with rfl | hmem
          · rw [hs] at ht'
            have hut : u = t := Option.some_injective _ ht'
            rw [← hut, hu] at hq
            exact absurd hq (by decide)
          · exact ⟨⟨s', hmem, ht'⟩, hq⟩
      · rw [if_neg hu]
        by_cases hq : qualifies u = true
        · rw [if_pos hq]
          constructor
          · intro hmem
            rcases List.mem_cons.mp hmem with rfl | hmem'
            · exact ⟨⟨s, List.mem_cons_self s rest, hs⟩, hq⟩
            · rcases ih.mp hmem' with ⟨⟨s', hs', ht'⟩, hq'⟩
              exact ⟨⟨s', List.mem_cons_of_mem s hs', ht'⟩, hq'⟩
          · rintro ⟨⟨s', hs', ht'⟩, hq'⟩
            rcases List.mem_cons.mp hs' with rfl | hmem
            · rw [hs] at ht'
              have : u = t := Option.some_injective _ ht'
              exact this ▸ List.mem_cons_self u (filterDescs rest)
            · exact List.mem_cons_of_mem u (ih.mpr ⟨⟨s', hmem, ht'⟩, hq'⟩)
        · rw [if_neg hq, ih]
          constructor
          · rintro ⟨⟨s', hs', ht'⟩, hq'⟩
            exact ⟨⟨s', List.mem_cons_of_mem s hs', ht'⟩, hq'⟩
          · rintro ⟨⟨s', hs', ht'⟩, hq'⟩
            rcases List.mem_cons.mp hs' with rfl | hmem
            · rw [hs] at ht'
              have : u = t := Option.some_injective _ ht'
              exact absurd (this ▸ hq') hq
            · exact ⟨⟨s', hmem, ht'⟩, hq'⟩

lemma featRel_iff (cs : List Str) (a b : Str) :
    featRel cs a b ↔ (criterionMatch cs a = true ∨ criterionMatch cs b = false) := by
  unfold featRel featureCmp
  cases ha : criterionMatch cs a <;> cases hb : criterionMatch cs b <;>
    simp [ha, hb] <;> decide

lemma descRel_iff (cs : List Str) (a b : Str) :
    descRel cs a b ↔ relevanceScore cs b ≤ relevanceScore cs a := by
  unfold descRel descCmp
  omega

lemma strengthsRel_iff (a b : Criterion) : strengthsRel a b ↔ b.rating ≤ a.rating := by
  unfold strengthsRel
  constructor
  · intro h
    linarith
  · intro h
    linarith

lemma jsSplit_eq (sep : Char) (s : Str) :
    jsSplit sep s =
      s.takeWhile (fun c => !decide (c = sep)) ::
        (if s.any (fun c => decide (c = sep)) = true then
          jsSplit sep ((s.dropWhile (fun c => !decide (c = sep))).drop 1)
        else []) := by
  induction s with
  | nil => simp [jsSplit]
  | cons c t ih =>
    by_cases hc : c = sep
    · subst hc
      simp [jsSplit]
    · simp only [jsSplit, if_neg hc, ih]
      simp [List.takeWhile_cons, List.dropWhile_cons, hc]

lemma jsSplit_ne_nil (sep : Char) (s : Str) : jsSplit sep s ≠ [] := by
  rw [jsSplit_eq]
  exact List.cons_ne_nil _ _

lemma jsIncludes_colon (s : Str) : jsIncludes s (str ":") = s.any (fun c => decide (c = ':')) := by
  induction s with
  | nil => decide
  | cons c t ih =>
    show (List.isPrefixOf (str ":") (c :: t) || jsIncludes t (str ":")) = _
    have hpre : List.isPrefixOf (str ":") (c :: t) = decide (c = ':') := by
      by_cases hc : c = ':'
      · subst hc
        simp [str, List.isPrefixOf]
      · simp [str, List.isPrefixOf, hc]
        intro h
        exact absurd h.symm hc
    rw [hpre, ih]
    simp [List.any_cons]

lemma lookupSpec_setSpec (m : List (Str × Str)) (k v : Str) :
    lookupSpec (setSpec m k v) k = some v := by
  induction m with
  | nil => simp [setSpec, lookupSpec, List.find?]
  | cons kv t ih =>
    obtain ⟨k2, v2⟩ := kv
    by_cases hk : k2 = k
    · subst hk
      simp [setSpec, lookupSpec, List.find?]
    · unfold setSpec lookupSpec
      rw [if_neg hk]
      rw [List.find?_cons]
      have : decide ((k2, v2).1 = k) = false := by
        simp [hk]
      rw [this]
      exact ih

lemma improveRel_iff (a b : Criterion) :
    improveRel a b ↔ (OrderDual.toDual b.rating : ℚᵒᵈ) ≤ OrderDual.toDual a.rating := by
  unfold improveRel
  rw [OrderDual.toDual_le_toDual]
  constructor
  · intro h
    linarith
  · intro h
    linarith

/-!
Claim theorems.
-/

/-- C1: for every entity sequence and preferences, at most one name and at
most one price are set on the resulting ProductInfo: the name equals the
name of the first entity in input order with type CONSUMER_GOOD, salience
above 0.1 and a non-empty name (empty string when none exists), and the
price equals the name of the first entity with type PRICE and a non-empty
name, with no salience threshold; later qualifying entities never
overwrite an assigned name or price. -/
theorem extractProductInfo_first_qualifying_name_price
    (entities : List Entity) (preferences : Option UserPreferences) :
    (extractProductInfo entities preferences).name = specFirstName entities ∧
    (extractProductInfo entities preferences).price = specFirstPrice entities := by
  refine ⟨?_, ?_⟩
  · rw [extractProductInfo_name_eq, foldl_processEntity_name]
    simp [initProductInfo]
  · rw [extractProductInfo_price_eq, foldl_processEntity_price]
    simp [initProductInfo]

/-- C3: a sentence text is in the output of the description selector if
and only if some input sentence carries it and it passes the filter
(length over 40, none of the lowercase boilerplate substrings),
regardless of the preferences. -/
theorem extractDescriptions_mem_iff_qualifies
    (sentences : List Sentence) (preferences : Option UserPreferences) (t : Str) :
    t ∈ extractDescriptions sentences preferences ↔
      ((∃ s ∈ sentences, s.text = some t) ∧ qualifies t = true) := by
  rw [← mem_filterDescs]
  unfold extractDescriptions
  cases preferences with
  | none => exact Iff.rfl
  | some p =>
    obtain ⟨ex, pt, ec⟩ := p
    cases ec with
    | none => exact Iff.rfl
    | some cs =>
      dsimp only
      split
      · exact (List.perm_insertionSort (descRel cs) (filterDescs sentences)).mem_iff
      · exact Iff.rfl

/-- C5: with preferences carrying non-empty evaluation criteria, the
features of the classifier's result are the stable partition of the
collected features: all criteria-matching features first, then all
non-matching ones, each block in original relative order. -/
theorem extractProductInfo_features_criteria_partition
    (entities : List Entity) (ex : Option Str) (pt : Option (List Str)) (cs : List Str)
    (hcs : cs ≠ []) :
    (extractProductInfo entities (some ⟨ex, pt, some cs⟩)).features =
      (entities.foldl processEntity initProductInfo).features.filter (criterionMatch cs) ++
        (entities.foldl processEntity initProductInfo).features.filter
          (fun f => !criterionMatch cs f) := by
  unfold extractProductInfo
  dsimp only
  split
  · exact insertionSort_partition (featRel cs) (criterionMatch cs)
      (fun a b => featRel_iff cs a b) _
  · rename_i h
    have hnil : (entities.foldl processEntity initProductInfo).features = [] := by
      cases hf : (entities.foldl processEntity initProductInfo).features with
      | nil => rfl
      | cons a l =>
        rw [hf] at h
        exact absurd (by simp) h
    rw [hnil]
    rfl

/-- Witness for C5 at a concrete input. -/
theorem extractProductInfo_features_criteria_partition_witness :
    ([str "battery"] : List Str) ≠ [] ∧
    (extractProductInfo
        [⟨str "OTHER", str "cheap plastic casing!", none, 1⟩,
          ⟨str "OTHER", str "great battery life!!!", none, 1⟩]
        (some ⟨none, none, some [str "battery"]⟩)).features =
      (([⟨str "OTHER", str "cheap plastic casing!", none, 1⟩,
          ⟨str "OTHER", str "great battery life!!!", none, 1⟩] : List Entity).foldl
          processEntity initProductInfo).features.filter (criterionMatch [str "battery"]) ++
        (([⟨str "OTHER", str "cheap plastic casing!", none, 1⟩,
          ⟨str "OTHER", str "great battery life!!!", none, 1⟩] : List Entity).foldl
          processEntity initProductInfo).features.filter
          (fun f => !criterionMatch [str "battery"] f) :=
  ⟨List.cons_ne_nil _ _,
    extractProductInfo_features_criteria_partition _ none none [str "battery"]
      (List.cons_ne_nil _ _)⟩

/-- C6: with preferences carrying non-empty evaluation criteria, the
description selector returns a permutation of the filtered candidates that
is sorted by weakly decreasing relevance score, and candidates of equal
score keep their original relative order. -/
theorem extractDescriptions_relevance_sorted
    (sentences : List Sentence) (ex : Option Str) (pt : Option (List Str)) (cs : List Str)
    (hcs : cs ≠ []) :
    (extractDescriptions sentences (some ⟨ex, pt, some cs⟩)).Perm (filterDescs sentences) ∧
    List.Sorted (fun a b => relevanceScore cs b ≤ relevanceScore cs a)
      (extractDescriptions sentences (some ⟨ex, pt, some cs⟩)) ∧
    ∀ n : ℕ,
      (extractDescriptions sentences (some ⟨ex, pt, some cs⟩)).filter
          (fun t => decide (relevanceScore cs t = n)) =
        (filterDescs sentences).filter (fun t => decide (relevanceScore cs t = n)) := by
  unfold extractDescriptions
  dsimp only
  split
  · refine ⟨List.perm_insertionSort _ _, ?_, ?_⟩
    · exact sorted_insertionSort_key (relevanceScore cs) (descRel cs) (descRel_iff cs) _
    · intro n
      exact filter_insertionSort_key (relevanceScore cs) (descRel cs) (descRel_iff cs) n _
  · rename_i h
    have hnil : filterDescs sentences = [] := by
      cases hf : filterDescs sentences with
      | nil => rfl
      | cons a l =>
        rw [hf] at h
        exact absurd (by simp) h
    rw [hnil]
    exact ⟨List.Perm.refl [], List.sorted_nil, fun n => rfl⟩

/-- Witness for C6 at a concrete input. -/
theorem extractDescriptions_relevance_sorted_witness :
    ([str "battery"] : List Str) ≠ [] ∧
    ((extractDescriptions
        [⟨some (str "Nothing relevant here but easily long enough to pass")⟩,
          ⟨some (str "The battery easily lasts a full day of heavy usage")⟩]
        (some ⟨none, none, some [str "battery"]⟩)).Perm
      (filterDescs
        [⟨some (str "Nothing relevant here but easily long enough to pass")⟩,
          ⟨some (str "The battery easily lasts a full day of heavy usage")⟩]) ∧
    List.Sorted
      (fun a b => relevanceScore [str "battery"] b ≤ relevanceScore [str "battery"] a)
      (extractDescriptions
        [⟨some (str "Nothing relevant here but easily long enough to pass")⟩,
          ⟨some (str "The battery easily lasts a full day of heavy usage")⟩]
        (some ⟨none, none, some [str "battery"]⟩)) ∧
    ∀ n : ℕ,
      (extractDescriptions
          [⟨some (str "Nothing relevant here but easily long enough to pass")⟩,
            ⟨some (str "The battery easily lasts a full day of heavy usage")⟩]
          (some ⟨none, none, some [str "battery"]⟩)).filter
          (fun t => decide (relevanceScore [str "battery"] t = n)) =
        (filterDescs
            [⟨some (str "Nothing relevant here but easily long enough to pass")⟩,
              ⟨some (str "The battery easily lasts a full day of heavy usage")⟩]).filter
          (fun t => decide (relevanceScore [str "battery"] t = n))) :=
  ⟨List.cons_ne_nil _ _,
    extractDescriptions_relevance_sorted _ none none [str "battery"] (List.cons_ne_nil _ _)⟩

/-- C10: the ProductInfo description field is initialized empty and never
assigned by any stage, so with an empty candidate list the report's
description section is exactly the placeholder text. -/
theorem productInfo_description_placeholder :
    (∀ (entities : List Entity) (preferences : Option UserPreferences),
      (extractProductInfo entities preferences).description = []) ∧
    (∀ (entities : List Entity) (preferences prefs2 : Option UserPreferences)
      (mainContent : Str),
      (buildReport (extractProductInfo entities preferences) [] mainContent
          prefs2).descriptionSection =
        str "No description available.") := by
  refine ⟨fun entities preferences => extractProductInfo_description_eq entities preferences, ?_⟩
  intro entities preferences prefs2 mainContent
  unfold buildReport
  simp [jsOr, extractProductInfo_description_eq, List.intercalate]

/-- C4: in detailed mode (expertise expert or advanced) the report has at
most 10 feature bullets, an Additional Information excerpt of at most 2000
characters of the readable content followed by an ellipsis marker, and a
description section built from the first 5 candidates; in any other mode
the caps are 5 bullets, 1000 characters and the first 3 candidates. -/
theorem buildReport_mode_bounds (pi : ProductInfo) (descriptions : List Str)
    (mainContent : Str) (preferences : Option UserPreferences) :
    (isExpertMode preferences = true →
      (buildReport pi descriptions mainContent preferences).featureBullets.length ≤ 10 ∧
      (buildReport pi descriptions mainContent preferences).additionalInfo =
        mainContent.take 2000 ++ str "..." ∧
      (mainContent.take 2000).length ≤ 2000 ∧
      (buildReport pi descriptions mainContent preferences).descriptionSection =
        jsOr (List.intercalate (str "\n\n") (descriptions.take 5))
          (jsOr pi.description (str "No description available."))) ∧
    (isExpertMode preferences = false →
      (buildReport pi descriptions mainContent preferences).featureBullets.length ≤ 5 ∧
      (buildReport pi descriptions mainContent preferences).additionalInfo =
        mainContent.take 1000 ++ str "..." ∧
      (mainContent.take 1000).length ≤ 1000 ∧
      (buildReport pi descriptions mainContent preferences).descriptionSection =
        jsOr (List.intercalate (str "\n\n") (descriptions.take 3))
          (jsOr pi.description (str "No description available."))) := by
  constructor
  · intro hm
    unfold buildReport
    rw [hm]
    refine ⟨?_, rfl, List.length_take_le _ _, rfl⟩
    dsimp only
    split
    · simp only [List.length_map]
      exact le_trans (List.length_take_le _ _) (le_of_eq rfl)
    · simp
  · intro hm
    unfold buildReport
    rw [hm]
    refine ⟨?_, rfl, List.length_take_le _ _, rfl⟩
    dsimp only
    split
    · simp only [List.length_map]
      exact le_trans (List.length_take_le _ _) (le_of_eq rfl)
    · simp

/-- Witness for C4 at concrete inputs, one per mode. -/
theorem buildReport_mode_bounds_witness :
    (isExpertMode (some ⟨some (str "expert"), none, none⟩) = true ∧
      (buildReport initProductInfo [] (str "hi")
          (some ⟨some (str "expert"), none, none⟩)).featureBullets.length ≤ 10 ∧
      (buildReport initProductInfo [] (str "hi")
          (some ⟨some (str "expert"), none, none⟩)).additionalInfo =
        (str "hi").take 2000 ++ str "..." ∧
      ((str "hi").take 2000).length ≤ 2000 ∧
      (buildReport initProductInfo [] (str "hi")
          (some ⟨some (str "expert"), none, none⟩)).descriptionSection =
        jsOr (List.intercalate (str "\n\n") (([] : List Str).take 5))
          (jsOr initProductInfo.description (str "No description available."))) ∧
    (isExpertMode none = false ∧
      (buildReport initProductInfo [] (str "hi") none).featureBullets.length ≤ 5 ∧
      (buildReport initProductInfo [] (str "hi") none).additionalInfo =
        (str "hi").take 1000 ++ str "..." ∧
      ((str "hi").take 1000).length ≤ 1000 ∧
      (buildReport initProductInfo [] (str "hi") none).descriptionSection =
        jsOr (List.intercalate (str "\n\n") (([] : List Str).take 3))
          (jsOr initProductInfo.description (str "No description available."))) :=
  ⟨⟨by decide,
      (buildReport_mode_bounds initProductInfo [] (str "hi")
        (some ⟨some (str "expert"), none, none⟩)).1 (by decide)⟩,
    ⟨rfl, (buildReport_mode_bounds initProductInfo [] (str "hi") none).2 rfl⟩⟩

/-- C7: with no configured credential, both annotation operations fail
with the configuration error (its message embedded in the stage-wrapped
error) and issue no network request (the request flag stays false). -/
theorem analyze_missing_key_no_request
    (entApi : Str → ApiOutcome (List Entity)) (synApi : Str → ApiOutcome (List Sentence))
    (text : Str) :
    analyzeEntities none entApi text =
      (Except.error (str "Failed to analyze entities: " ++
        str "Google Cloud API key is not configured"), false) ∧
    analyzeSyntax none synApi text =
      (Except.error (str "Failed to analyze syntax: " ++
        str "Google Cloud API key is not configured"), false) ∧
    jsIncludes
        (str "Failed to analyze entities: " ++ str "Google Cloud API key is not configured")
        (str "Google Cloud API key is not configured") = true ∧
    jsIncludes
        (str "Failed to analyze syntax: " ++ str "Google Cloud API key is not configured")
        (str "Google Cloud API key is not configured") = true :=
  ⟨rfl, rfl, by decide, by decide⟩

/-- C8: the pipeline yields either a full report or a single error wrapped
by the top-level handler whose message embeds a stage tag and the
underlying cause; no stage swallows a failure and no partial report is
produced. -/
theorem extractTextFromUrl_error_wrapped (env : Env) (url : Str)
    (preferences : Option UserPreferences) :
    (∃ report, extractTextFromUrl env url preferences = Except.ok report) ∨
    (∃ tag cause, extractTextFromUrl env url preferences =
        Except.error (str "Failed to extract text from URL: " ++ (tag ++ cause)) ∧
      (tag = str "Failed to fetch content from URL: " ∨
        tag = str "Failed to extract main content: " ∨
        tag = str "Failed to analyze entities: " ∨
        tag = str "Failed to analyze syntax: ")) := by
  unfold extractTextFromUrl fetchHtmlFromUrl extractMainContent analyzeEntities analyzeSyntax
  cases hf : env.fetch url with
  | httpError s =>
    right
    exact ⟨str "Failed to fetch content from URL: ", str "Failed to fetch URL: " ++ s, rfl,
      Or.inl rfl⟩
  | netError m =>
    right
    exact ⟨str "Failed to fetch content from URL: ", m, rfl, Or.inl rfl⟩
  | success html =>
    dsimp only
    cases hp : env.parse html with
    | error m =>
      right
      exact ⟨str "Failed to extract main content: ", m, rfl, Or.inr (Or.inl rfl)⟩
    | ok t =>
      dsimp only
      by_cases ht : t = []
      · rw [if_pos ht]
        right
        exact ⟨str "Failed to extract main content: ",
          str "Failed to extract main content from HTML", rfl, Or.inr (Or.inl rfl)⟩
      · rw [if_neg ht]
        dsimp only
        cases hk : env.apiKey with
        | none =>
          right
          exact ⟨str "Failed to analyze entities: ",
            str "Google Cloud API key is not configured", rfl, Or.inr (Or.inr (Or.inl rfl))⟩
        | some key =>
          dsimp only
          cases he : env.entitiesApi (List.take 5000 t) with
          | httpError st b =>
            right
            exact ⟨str "Failed to analyze entities: ",
              str "Google Cloud API error: " ++ st ++ str " - " ++ b, rfl,
              Or.inr (Or.inr (Or.inl rfl))⟩
          | success es =>
            dsimp only
            cases hsyn : env.syntaxApi (List.take 5000 t) with
            | httpError st b =>
              right
              exact ⟨str "Failed to analyze syntax: ",
                str "Google Cloud API error: " ++ st ++ str " - " ++ b, rfl,
                Or.inr (Or.inr (Or.inr rfl))⟩
            | success ss =>
              left
              exact ⟨_, rfl⟩

/-- C9: for non-empty criteria the simulated fallback summary reports the
arithmetic mean of the ratings (rendered to one decimal place in the
markdown), the top min(3, n) criteria by rating descending as strengths,
and the bottom min(2, n) criteria by rating ascending as improvements. -/
theorem getSimulatedSummary_spec (criteria : List Criterion) (h : criteria ≠ []) :
    (getSimulatedSummary criteria).averageRating =
      (criteria.map Criterion.rating).sum / (criteria.length : ℚ) ∧
    (getSimulatedSummary criteria).strengths.length = min 3 criteria.length ∧
    List.Sorted (fun a b : Criterion => b.rating ≤ a.rating)
      (getSimulatedSummary criteria).strengths ∧
    (∃ rest, criteria.Perm ((getSimulatedSummary criteria).strengths ++ rest) ∧
      ∀ x ∈ (getSimulatedSummary criteria).strengths, ∀ y ∈ rest, y.rating ≤ x.rating) ∧
    (getSimulatedSummary criteria).improvements.length = min 2 criteria.length ∧
    List.Sorted (fun a b : Criterion => a.rating ≤ b.rating)
      (getSimulatedSummary criteria).improvements ∧
    (∃ rest, criteria.Perm ((getSimulatedSummary criteria).improvements ++ rest) ∧
      ∀ x ∈ (getSimulatedSummary criteria).improvements, ∀ y ∈ rest, x.rating ≤ y.rating) := by
  have hpermS := List.perm_insertionSort strengthsRel criteria
  have hsortS : List.Sorted (fun a b : Criterion => b.rating ≤ a.rating)
      (List.insertionSort strengthsRel criteria) :=
    sorted_insertionSort_key Criterion.rating strengthsRel strengthsRel_iff criteria
  have hpermI := List.perm_insertionSort improveRel criteria
  have hsortI : List.Sorted (fun a b : Criterion => a.rating ≤ b.rating)
      (List.insertionSort improveRel criteria) :=
    (sorted_insertionSort_key (fun c : Criterion => OrderDual.toDual c.rating)
        improveRel improveRel_iff criteria).imp
      (fun hab => OrderDual.toDual_le_toDual.mp hab)
  simp only [getSimulatedSummary]
  refine ⟨trivial, ?_, ?_, ?_, ?_, ?_, ?_⟩
  · rw [List.length_take, hpermS.length_eq]
    omega
  · exact List.Pairwise.sublist (List.take_sublist _ _) hsortS
  · refine ⟨(List.insertionSort strengthsRel criteria).drop (min 3 criteria.length), ?_, ?_⟩
    · rw [List.take_append_drop]
      exact hpermS.symm
    · have hps : List.Pairwise (fun a b : Criterion => b.rating ≤ a.rating)
          ((List.insertionSort strengthsRel criteria).take (min 3 criteria.length) ++
            (List.insertionSort strengthsRel criteria).drop (min 3 criteria.length)) := by
        rw [List.take_append_drop]
        exact hsortS
      intro x hx y hy
      exact (List.pairwise_append.mp hps).2.2 x hx y hy
  · rw [List.length_take, hpermI.length_eq]
    omega
  · exact List.Pairwise.sublist (List.take_sublist _ _) hsortI
  · refine ⟨(List.insertionSort improveRel criteria).drop (min 2 criteria.length), ?_, ?_⟩
    · rw [List.take_append_drop]
      exact hpermI.symm
    · have hps : List.Pairwise (fun a b : Criterion => a.rating ≤ b.rating)
          ((List.insertionSort improveRel criteria).take (min 2 criteria.length) ++
            (List.insertionSort improveRel criteria).drop (min 2 criteria.length)) := by
        rw [List.take_append_drop]
        exact hsortI
      intro x hx y hy
      exact (List.pairwise_append.mp hps).2.2 x hx y hy

/-- Witness for C9 at a concrete input. -/
theorem getSimulatedSummary_spec_witness :
    (getSimulatedSummary [⟨str "A", 8, str "na"⟩, ⟨str "B", 5, str "nb"⟩]).averageRating =
      (([⟨str "A", 8, str "na"⟩, ⟨str "B", 5, str "nb"⟩] : List Criterion).map
          Criterion.rating).sum /
        (([⟨str "A", 8, str "na"⟩, ⟨str "B", 5, str "nb"⟩] : List Criterion).length : ℚ) ∧
    (getSimulatedSummary [⟨str "A", 8, str "na"⟩, ⟨str "B", 5, str "nb"⟩]).strengths.length =
      min 3 ([⟨str "A", 8, str "na"⟩, ⟨str "B", 5, str "nb"⟩] : List Criterion).length ∧
    List.Sorted (fun a b : Criterion => b.rating ≤ a.rating)
      (getSimulatedSummary [⟨str "A", 8, str "na"⟩, ⟨str "B", 5, str "nb"⟩]).strengths ∧
    (∃ rest, ([⟨str "A", 8, str "na"⟩, ⟨str "B", 5, str "nb"⟩] : List Criterion).Perm
        ((getSimulatedSummary [⟨str "A", 8, str "na"⟩, ⟨str "B", 5, str "nb"⟩]).strengths ++
          rest) ∧
      ∀ x ∈ (getSimulatedSummary [⟨str "A", 8, str "na"⟩, ⟨str "B", 5, str "nb"⟩]).strengths,
        ∀ y ∈ rest, y.rating ≤ x.rating) ∧
    (getSimulatedSummary [⟨str "A", 8, str "na"⟩, ⟨str "B", 5, str "nb"⟩]).improvements.length =
      min 2 ([⟨str "A", 8, str "na"⟩, ⟨str "B", 5, str "nb"⟩] : List Criterion).length ∧
    List.Sorted (fun a b : Criterion => a.rating ≤ b.rating)
      (getSimulatedSummary [⟨str "A", 8, str "na"⟩, ⟨str "B", 5, str "nb"⟩]).improvements ∧
    (∃ rest, ([⟨str "A", 8, str "na"⟩, ⟨str "B", 5, str "nb"⟩] : List Criterion).Perm
        ((getSimulatedSummary [⟨str "A", 8, str "na"⟩, ⟨str "B", 5, str "nb"⟩]).improvements ++
          rest) ∧
      ∀ x ∈ (getSimulatedSummary [⟨str "A", 8, str "na"⟩, ⟨str "B", 5, str "nb"⟩]).improvements,
        ∀ y ∈ rest, x.rating ≤ y.rating) :=
  getSimulatedSummary_spec [⟨str "A", 8, str "na"⟩, ⟨str "B", 5, str "nb"⟩]
    (List.cons_ne_nil _ _)

/-- C2 counterexample: for the qualifying entity name "a:b:c" the stored
specification value is "b", not the entire trimmed text after the first
colon ("b:c"): the code splits on every colon and keeps only the second
segment. -/
theorem specification_value_counterexample :
    (extractProductInfo [⟨str "OTHER", str "a:b:c", none, 1⟩] none).specifications =
      [(str "a", str "b")] ∧
    trimStr (textAfterFirstColon (str "a:b:c")) = str "b:c" ∧
    (extractProductInfo [⟨str "OTHER", str "a:b:c", none, 1⟩] none).specifications ≠
      [(str "a", trimStr (textAfterFirstColon (str "a:b:c")))] := by
  decide

/-- C2 (amended): for a qualifying entity (type OTHER, some mention,
non-empty name that fails the feature test and contains a colon), the key
is the trimmed text before the first colon and the stored value is the
trimmed segment between the first and second colon (to the end of the
string when there is no second colon); the pair is stored only when both
are non-empty, and storing overwrites any previous value of the key. -/
theorem processEntity_spec_key_value_segments (pi : ProductInfo) (e : Entity)
    (htype : e.type = str "OTHER") (hment : e.mentions > 0) (hname : e.name ≠ [])
    (hnofeat : ¬ (jsIncludes e.name (str " ") = true ∧ e.name.length > 10))
    (hcolon : jsIncludes e.name (str ":") = true) :
    (processEntity pi e).specifications =
      (if trimStr (textBeforeFirstColon e.name) ≠ [] ∧
          trimStr (colonValueSegment e.name) ≠ [] then
        setSpec pi.specifications (trimStr (textBeforeFirstColon e.name))
          (trimStr (colonValueSegment e.name))
      else pi.specifications) ∧
    (∀ (m : List (Str × Str)) (k v : Str), lookupSpec (setSpec m k v) k = some v) := by
  refine ⟨?_, lookupSpec_setSpec⟩
  have hany : e.name.any (fun c => decide (c = ':')) = true := by
    rw [← jsIncludes_colon]
    exact hcolon
  have hkey : ((jsSplit ':' e.name).map trimStr).getD 0 [] =
      trimStr (textBeforeFirstColon e.name) := by
    rw [jsSplit_eq]
    simp [textBeforeFirstColon]
  have hval : ((jsSplit ':' e.name).map trimStr).getD 1 [] =
      trimStr (colonValueSegment e.name) := by
    rw [jsSplit_eq, if_pos hany, jsSplit_eq]
    simp [colonValueSegment, textAfterFirstColon]
  unfold processEntity
  rw [if_neg hname]
  have hng : ¬ (e.type = str "CONSUMER_GOOD" ∧ salienceOk e.salience = true ∧
      pi.name = []) := by
    rintro ⟨hcg, -, -⟩
    rw [htype] at hcg
    exact absurd hcg (by decide)
  rw [if_neg hng]
  dsimp only
  have hnp : ¬ (e.type = str "PRICE" ∧ pi.price = []) := by
    rintro ⟨hpr, -⟩
    rw [htype] at hpr
    exact absurd hpr (by decide)
  rw [if_neg hnp]
  rw [if_pos (⟨htype, hment⟩ : e.type = str "OTHER" ∧ e.mentions > 0)]
  rw [if_neg hnofeat, if_pos hcolon]
  rw [hkey, hval]
  by_cases hc : trimStr (textBeforeFirstColon e.name) ≠ [] ∧
      trimStr (colonValueSegment e.name) ≠ []
  · rw [if_pos hc, if_pos hc]
  · rw [if_neg hc, if_neg hc]

/-- Witness for the amended C2 at a concrete input. -/
theorem processEntity_spec_key_value_segments_witness :
    (processEntity initProductInfo ⟨str "OTHER", str "a:b:c", none, 1⟩).specifications =
      (if trimStr (textBeforeFirstColon (str "a:b:c")) ≠ [] ∧
          trimStr (colonValueSegment (str "a:b:c")) ≠ [] then
        setSpec initProductInfo.specifications
          (trimStr (textBeforeFirstColon (str "a:b:c")))
          (trimStr (colonValueSegment (str "a:b:c")))
      else initProductInfo.specifications) ∧
    (∀ (m : List (Str × Str)) (k v : Str), lookupSpec (setSpec m k v) k = some v) :=
  processEntity_spec_key_value_segments initProductInfo ⟨str "OTHER", str "a:b:c", none, 1⟩
    rfl (by decide) (by decide) (by decide) (by decide)

end BusinessEvaluator
